import Mathlib

/-!
Verification development for the futile repository.

The repository centres on a generic connection pool (`futile.connection_pool`,
used by `src/futile/sql.py`) together with SQL statement builders and the
`MysqlClient` / `MysqlDatabase` wrappers in `src/futile/sql.py`.

The module `futile/connection_pool.py` itself is not part of the source tree
available here; only its caller `src/futile/sql.py` is.  The pool is therefore
modelled from the specification (sections 3 to 7 of the design document): slot
tokens, a LIFO free list, an all-resources registry, an owner pid with
fork-reset, timeout-bounded acquisition and best-effort release.  The
`MysqlClient.transaction` pattern and the SQL `select` builder are embedded
directly from `src/futile/sql.py`.

Blocking acquisition is modelled at its linearization point: operations on the
pool are serialized by the pool lock mandated by the specification, so a
concurrent history is an interleaving of atomic `acquire` / `release` steps,
and an `acquire` that waits and then succeeds is the same atomic step scheduled
after the `release` that fed it.  With that convention `acquire` on an empty
free list is exactly the case where no item became available within the
timeout (immediately, for timeout 0).
-/

namespace Futile

/-- Modelled from the spec: a live resource managed by the pool
(`futile/connection_pool.py` is missing from the source tree).  `rid` is the
identity of the resource, `pid` the identifier of the process that created it,
mirroring `self.pid = os.getpid()` in `MysqlConnection.__init__`
(src/futile/sql.py lines 18-27). -/
structure Resource where
  rid : Nat
  pid : Nat
deriving DecidableEq, Repr

/-- Modelled from the spec: an entry of the free list is either a fungible
slot token ("a resource may be created here") or an idle resource. -/
inductive Item where
  | token : Item
  | res : Resource → Item
deriving DecidableEq, Repr

/-- Modelled from the spec: the pool state of `futile.connection_pool`
(missing from the source tree): `maxSize`, the owner pid recorded at
initialization, the LIFO free list (head of the list is the top of the
stack), the registry of all resources ever created, and the list of
resources on which the close-resource capability has been invoked (kept to
reason about which paths close resources). -/
structure PoolState where
  maxSize : Nat
  ownerPid : Nat
  free : List Item
  registry : List Resource
  closed : List Resource
deriving DecidableEq, Repr

/-- Modelled from the spec: construction seeds the free list with `maxSize`
slot tokens and records the current process identifier as the owner pid. -/
def initPool (maxSize pid : Nat) : PoolState :=
  { maxSize := maxSize
    ownerPid := pid
    free := List.replicate maxSize Item.token
    registry := []
    closed := [] }

/-- Modelled from the spec: the fork check performed by `acquire`.  If the
current process identifier differs from the recorded owner pid the pool is
reset: all previously registered resources are discarded without closing
them, the free list is repopulated with fresh slot tokens, and the owner pid
is updated. -/
def checkPid (pid : Nat) (p : PoolState) : PoolState :=
  if pid = p.ownerPid then p
  else
    { p with
      ownerPid := pid
      free := List.replicate p.maxSize Item.token
      registry := [] }

/-- Modelled from the spec: the outcome of one `acquire` call.  `ok` hands a
resource to the caller, `poolExhausted` is the typed failure raised when no
item becomes available within the timeout, `factoryError` propagates a
resource-factory failure unchanged. -/
inductive AcquireResult where
  | ok : Resource → AcquireResult
  | poolExhausted : AcquireResult
  | factoryError : AcquireResult
deriving DecidableEq, Repr

/-- Modelled from the spec: one `acquire` call at its linearization point.
`pid` is the current process identifier, `factoryOk` tells whether the
resource factory succeeds if it is invoked, `nid` is the next fresh resource
identity.  After the fork check, the top of the free list is popped: an empty
free list means no item became available within the timeout and the call
fails with `poolExhausted`; a slot token triggers the factory, on success the
new resource is registered and returned, on failure the consumed token is
restored to the free list and the factory error is propagated; an idle
resource is returned directly.  Returns the result, the new pool state and
the next fresh identity. -/
def acquire (pid : Nat) (factoryOk : Bool) (nid : Nat) (p : PoolState) :
    AcquireResult × PoolState × Nat :=
  let q := checkPid pid p
  match q.free with
  | [] => (AcquireResult.poolExhausted, q, nid)
  | Item.token :: rest =>
      if factoryOk then
        let r : Resource := { rid := nid, pid := pid }
        (AcquireResult.ok r,
          { q with free := rest, registry := r :: q.registry }, nid + 1)
      else
        (AcquireResult.factoryError, { q with free := Item.token :: rest }, nid)
  | Item.res r :: rest =>
      (AcquireResult.ok r, { q with free := rest }, nid)

/-- Modelled from the spec: `release`.  If the resource's owner pid no longer
matches the pool's current owner pid the release is a silent no-op (the
resource is dropped, never closed).  Otherwise the resource is pushed onto
the free list, unless the free list is already at capacity, in which case the
resource is dropped rather than an error being raised. -/
def release (r : Resource) (p : PoolState) : PoolState :=
  if r.pid ≠ p.ownerPid then p
  else if p.maxSize ≤ p.free.length then p
  else { p with free := Item.res r :: p.free }

/-- Modelled from the spec: `disconnect_all` closes every resource in the
registry (individual close failures are swallowed) and clears the registry. -/
def disconnectAll (p : PoolState) : PoolState :=
  { p with registry := [], closed := p.closed ++ p.registry }

/-- The resources currently sitting idle in the free list. -/
def freeRes (p : PoolState) : List Resource :=
  p.free.filterMap fun it =>
    match it with
    | Item.token => none
    | Item.res r => some r

/-- The number of slot tokens currently in the free list. -/
def tokenCount (p : PoolState) : Nat :=
  (p.free.filter fun it => it = Item.token).length

/-- A whole system: the pool together with the multiset of resources currently
checked out by callers (`held`) and the next fresh resource identity. -/
structure SysState where
  pool : PoolState
  held : List Resource
  nextId : Nat
deriving DecidableEq, Repr

/-- The initial system: a freshly constructed pool, nothing held. -/
def initSys (maxSize pid : Nat) : SysState :=
  { pool := initPool maxSize pid, held := [], nextId := 0 }

/-- One atomic pool operation issued by some caller.  `acq pid factoryOk` is
an `acquire` call made while the current process identifier is `pid`, with
the given factory outcome if the factory is invoked; `rel i` is a `release`
of the i-th currently held resource by the caller holding it. -/
inductive Op where
  | acq : Nat → Bool → Op
  | rel : Nat → Op
deriving DecidableEq, Repr

/-- One step of the system: an `acquire` that returns a resource transfers it
to the held multiset; a `release` removes the resource from the held multiset
and hands it back to the pool. -/
def step (s : SysState) (op : Op) : SysState :=
  match op with
  | Op.acq pid factoryOk =>
      match acquire pid factoryOk s.nextId s.pool with
      | (AcquireResult.ok r, p, nid) =>
          { pool := p, held := r :: s.held, nextId := nid }
      | (_, p, nid) => { s with pool := p, nextId := nid }
  | Op.rel i =>
      match s.held[i]? with
      | none => s
      | some r =>
          { s with pool := release r s.pool, held := s.held.eraseIdx i }

/-- Run a sequence of operations from a state. -/
def run (s : SysState) (ops : List Op) : SysState :=
  List.foldl step s ops

/-- Whether the operation, if it is an `acquire`, is made from process
`pid`. -/
def fromPid (pid : Nat) : Op → Bool
  | Op.acq q _ => q = pid
  | Op.rel _ => true

/-- An operation sequence in which every `acquire` is made from process
`pid` (no fork happens during the sequence). -/
def SamePid (pid : Nat) (ops : List Op) : Prop :=
  ∀ op ∈ ops, fromPid pid op = true

/-! ## MysqlClient.transaction (src/futile/sql.py, lines 86-99)

The transaction context manager acquires one connection from the pool, calls
`begin()` on it, and on `mysql.OperationalError` calls `disconnect()` followed
by a second `begin()` on the same wrapper; the `finally` clause releases the
wrapper back to the pool unconditionally.  `MysqlConnection.begin` goes
through `__getattr__` (lines 49-55): if the underlying raw connection is
`None` it first calls `connect()`, which opens a fresh raw connection, and
then forwards `begin` to the raw connection.  `disconnect` (lines 41-47)
closes the raw connection and sets it to `None`.

Raw connections are modelled by identities drawn from a fresh counter, and a
predicate `stale` tells which raw connections raise `OperationalError` when
`begin` is forwarded to them. -/

/-- The result of forwarding a method to the wrapper via `__getattr__`
(src/futile/sql.py lines 49-55) followed by a `begin` on the raw connection:
if the wrapper has no raw connection, `connect` opens a fresh one (identity
`fresh`); `begin` then succeeds iff the raw connection in use is not stale.
Returns (success, raw connection now held by the wrapper, next fresh raw
identity). -/
def wrapperBegin (stale : Nat → Bool) (u : Option Nat) (fresh : Nat) :
    Bool × Option Nat × Nat :=
  match u with
  | none => (!(stale fresh), some fresh, fresh + 1)
  | some c => (!(stale c), some c, fresh)

/-- The begin phase of `MysqlClient.transaction` (src/futile/sql.py lines
90-95): a first `begin`; on `OperationalError` a `disconnect` (which closes
the current raw connection) followed by a second `begin` on the same wrapper,
whose failure propagates.  Returns (success, wrapper raw connection, next
fresh raw identity, raw connections closed by `disconnect`). -/
def beginPhase (stale : Nat → Bool) (u : Option Nat) (fresh : Nat) :
    Bool × Option Nat × Nat × List Nat :=
  match wrapperBegin stale u fresh with
  | (true, u1, f1) => (true, u1, f1, [])
  | (false, u1, f1) =>
      match wrapperBegin stale none f1 with
      | (ok2, u2, f2) => (ok2, u2, f2, u1.toList)

/-- The outcome of one `transaction` block. -/
inductive TxOutcome where
  | ok : TxOutcome
  | poolError : TxOutcome
  | beginError : TxOutcome
deriving DecidableEq, Repr

/-- The observable effect of one `MysqlClient.transaction` block
(src/futile/sql.py lines 86-99). -/
structure TxResult where
  outcome : TxOutcome
  acquiredRids : List Nat
  releasedRids : List Nat
  closedRaws : List Nat
  pool : PoolState
  wrapperRaw : Option Nat
  nextRaw : Nat
deriving DecidableEq, Repr

/-- Embeds `MysqlClient.transaction` (src/futile/sql.py lines 86-99), with
the transaction body and `commit` elided (they do not touch the pool and
cannot raise in this model).  `underOf` gives the raw connection currently
held by the wrapper of the resource the pool hands out (a freshly created
`MysqlConnection` starts with `_connection = None`, an idle one may still
hold a raw connection).  `get_connection` is a pool `acquire`; if it fails,
the failure propagates before the `try` block, so nothing is released.
Otherwise the begin phase runs and, via `finally`, the wrapper is released
back to the pool unconditionally — whether `begin` succeeded, recovered via
`disconnect` and a retry, or failed again. -/
def transaction (pid : Nat) (factoryOk : Bool) (nid : Nat)
    (stale : Nat → Bool) (underOf : Nat → Option Nat) (fresh : Nat)
    (p : PoolState) : TxResult :=
  match acquire pid factoryOk nid p with
  | (AcquireResult.ok r, p1, _) =>
      match beginPhase stale (underOf r.rid) fresh with
      | (ok, u2, f2, closedRaws) =>
          { outcome := if ok then TxOutcome.ok else TxOutcome.beginError
            acquiredRids := [r.rid]
            releasedRids := [r.rid]
            closedRaws := closedRaws
            pool := release r p1
            wrapperRaw := u2
            nextRaw := f2 }
  | (_, p1, _) =>
      { outcome := TxOutcome.poolError
        acquiredRids := []
        releasedRids := []
        closedRaws := []
        pool := p1
        wrapperRaw := none
        nextRaw := fresh }

/-! ## The select statement builder (src/futile/sql.py, lines 163-189)

The builder accumulates SQL fragments in a Python list `sql` and returns
`" ".join(sql)`.  The where dictionary is rendered by `_dict2str`; since no
claim depends on its contents, the rendered condition is abstracted as an
optional string (`none` for a missing or empty — hence falsy — dict).
`limit` and `offset` follow Python truthiness: `0` behaves like `None`. -/

/-- Python truthiness of an optional integer argument: `None` and `0` are
falsy. -/
def truthyNat : Option Nat → Bool
  | none => false
  | some n => n ≠ 0

/-- Python truthiness of an optional string argument: `None` and the empty
string are falsy. -/
def truthyStr : Option String → Bool
  | none => false
  | some s => s ≠ ""

/-- The fragment list built by `select` (src/futile/sql.py lines 163-189):
the base clause, then conditionally `where`, `limit`, `offset` and
`order by` fragments, each guarded by Python truthiness of its argument. -/
def selectParts (table keys : String) (whereC : Option String)
    (limit offset : Option Nat) (orderBy : Option String) : List String :=
  ["select " ++ keys ++ " from " ++ table]
    ++ (if truthyStr whereC then ["where", whereC.getD ""] else [])
    ++ (if truthyNat limit then ["limit", toString (limit.getD 0)] else [])
    ++ (if truthyNat offset then ["offset", toString (offset.getD 0)] else [])
    ++ (if truthyStr orderBy then ["order by", orderBy.getD ""] else [])

/-- The string returned by `select`: the fragments joined by single spaces. -/
def selectStmt (table keys : String) (whereC : Option String)
    (limit offset : Option Nat) (orderBy : Option String) : String :=
  String.intercalate " " (selectParts table keys whereC limit offset orderBy)

/-- Embeds `MysqlDatabase._add_log_id` (src/futile/sql.py lines 255-256). -/
def addLogId (logId stmt : String) : String :=
  stmt ++ logId

/-- The fragment list underlying the statement issued by
`MysqlDatabase.select` (src/futile/sql.py lines 290-298): the call
`select(table, keys, where, limit, offset)` passes five positional
arguments, so the builder's `order_by` parameter takes its default `None`
whatever `order_by` the caller supplied to the method. -/
def dbSelectParts (table keys : String) (whereC : Option String)
    (limit offset : Option Nat) (_orderBy : Option String) : List String :=
  selectParts table keys whereC limit offset none

/-- The statement issued by `MysqlDatabase.select` (src/futile/sql.py lines
290-298): the built string with the log-id comment appended. -/
def dbSelectStmt (logId : String) (table keys : String)
    (whereC : Option String) (limit offset : Option Nat)
    (_orderBy : Option String) : String :=
  addLogId logId (selectStmt table keys whereC limit offset none)

/-- The statement issued by one round of `MysqlDatabase.iter_select`
(src/futile/sql.py lines 300-312): `self.select(table, keys=keys,
where=where, limit=chunk_size, order_by="id")`. -/
def iterSelectStmt (logId : String) (table keys : String)
    (whereC : Option String) (chunkSize : Nat) : String :=
  dbSelectStmt logId table keys whereC (some chunkSize) none (some "id")

/-- The fragment list underlying one `iter_select` round. -/
def iterSelectParts (table keys : String) (whereC : Option String)
    (chunkSize : Nat) : List String :=
  dbSelectParts table keys whereC (some chunkSize) none (some "id")

/-! ## Invariant predicates

The core invariant, taken over all reachable system states: every resource
sitting in the free list or held by a caller carries a distinct identity
below the fresh counter, and every resource in the free list was created in
the pool's current process. -/

/-- All resources currently visible in the system: the ones held by callers
followed by the idle ones in the free list. -/
def resList (s : SysState) : List Resource :=
  s.held ++ freeRes s.pool

/-- The core invariant of the pool system. -/
def Inv (s : SysState) : Prop :=
  (∀ r ∈ resList s, r.rid < s.nextId) ∧
  ((resList s).map Resource.rid).Nodup ∧
  (∀ r ∈ freeRes s.pool, r.pid = s.pool.ownerPid)

/-- The resource `r` has been dropped for good: its identity is below the
fresh counter, it is not in the free list and no caller holds it.  Once this
holds it is preserved by every further operation, so `r` can never again be
handed out by `acquire`. -/
def Banished (r : Resource) (s : SysState) : Prop :=
  r.rid < s.nextId ∧ r ∉ freeRes s.pool ∧ r ∉ s.held

/-- The counting invariant used while no fork happens: the pool's size bound
and owner pid are unchanged and the held resources and the free list
together never exceed `m` entries. -/
def NoForkInv (pid m : Nat) (s : SysState) : Prop :=
  s.pool.maxSize = m ∧ s.pool.ownerPid = pid ∧
    s.held.length + s.pool.free.length ≤ m

/-- The discard-and-reacquire pattern that the specification attributes to
`MysqlClient.transaction`: whenever the first `begin` on the acquired
resource fails with an operational failure (its raw connection `c` is
stale), the resource is not returned to the pool and the retry runs against
a second, freshly acquired resource — two pool acquisitions in total. -/
def discardAndReacquirePattern (pid : Nat) (factoryOk : Bool) (nid : Nat)
    (stale : Nat → Bool) (underOf : Nat → Option Nat) (fresh : Nat)
    (p : PoolState) : Prop :=
  ∀ r p' nid', acquire pid factoryOk nid p = (AcquireResult.ok r, p', nid') →
    ∀ c, underOf r.rid = some c → stale c = true →
      r.rid ∉ (transaction pid factoryOk nid stale underOf fresh p).releasedRids
        ∧ (transaction pid factoryOk nid stale underOf fresh p).acquiredRids.length = 2

/-! ## Basic lemmas about the pool model -/

theorem freeRes_replicate_token (n : Nat) (p : PoolState)
    (h : p.free = List.replicate n Item.token) : freeRes p = [] := by
  unfold freeRes
  rw [h]
  simp

theorem freeRes_cons_token (p q : PoolState) (rest : List Item)
    (hp : p.free = Item.token :: rest) (hq : q.free = rest) :
    freeRes p = freeRes q := by
  unfold freeRes
  rw [hp, hq, List.filterMap_cons]

theorem freeRes_cons_res (p q : PoolState) (r : Resource) (rest : List Item)
    (hp : p.free = Item.res r :: rest) (hq : q.free = rest) :
    freeRes p = r :: freeRes q := by
  unfold freeRes
  rw [hp, hq, List.filterMap_cons]

theorem checkPid_ownerPid (pid : Nat) (p : PoolState) :
    (checkPid pid p).ownerPid = pid := by
  unfold checkPid
  split
  · simpa using (by assumption : pid = p.ownerPid).symm
  · rfl

theorem checkPid_freeRes (pid : Nat) (p : PoolState) :
    freeRes (checkPid pid p) = freeRes p ∨ freeRes (checkPid pid p) = [] := by
  unfold checkPid
  split
  · exact Or.inl rfl
  · exact Or.inr (freeRes_replicate_token p.maxSize _ rfl)

theorem checkPid_closed (pid : Nat) (p : PoolState) :
    (checkPid pid p).closed = p.closed := by
  unfold checkPid
  split <;> rfl

theorem checkPid_maxSize (pid : Nat) (p : PoolState) :
    (checkPid pid p).maxSize = p.maxSize := by
  unfold checkPid
  split <;> rfl

theorem checkPid_same (pid : Nat) (p : PoolState) (h : p.ownerPid = pid) :
    checkPid pid p = p := by
  unfold checkPid
  simp [h]

theorem perm_cons_eraseIdx {α : Type} (l : List α) (i : Nat) (r : α)
    (h : l[i]? = some r) : l.Perm (r :: l.eraseIdx i) := by
  induction l generalizing i with
  | nil => simp at h
  | cons a rest ih =>
      cases i with
      | zero =>
          simp only [List.getElem?_cons_zero, Option.some_inj] at h
          subst h
          simp [List.eraseIdx]
      | succ j =>
          simp only [List.getElem?_cons_succ] at h
          have hrest := ih j h
          have h1 : (a :: rest).Perm (a :: r :: rest.eraseIdx j) := hrest.cons a
          have h2 : (a :: r :: rest.eraseIdx j).Perm (r :: a :: rest.eraseIdx j) :=
            List.Perm.swap r a _
          simpa [List.eraseIdx_cons_succ] using h1.trans h2

theorem mem_of_getElem? {α : Type} (l : List α) (i : Nat) (r : α)
    (h : l[i]? = some r) : r ∈ l :=
  (perm_cons_eraseIdx l i r h).symm.subset (List.mem_cons_self r _)

theorem acquire_nil (pid : Nat) (b : Bool) (nid : Nat) (p : PoolState)
    (h : (checkPid pid p).free = []) :
    acquire pid b nid p = (AcquireResult.poolExhausted, checkPid pid p, nid) := by
  simp only [acquire]
  rw [h]

theorem acquire_token_ok (pid nid : Nat) (p : PoolState) (rest : List Item)
    (h : (checkPid pid p).free = Item.token :: rest) :
    acquire pid true nid p =
      (AcquireResult.ok { rid := nid, pid := pid },
        { checkPid pid p with
          free := rest
          registry := { rid := nid, pid := pid } :: (checkPid pid p).registry },
        nid + 1) := by
  simp only [acquire]
  rw [h]
  simp

theorem acquire_token_fail (pid nid : Nat) (p : PoolState) (rest : List Item)
    (h : (checkPid pid p).free = Item.token :: rest) :
    acquire pid false nid p =
      (AcquireResult.factoryError,
        { checkPid pid p with free := Item.token :: rest }, nid) := by
  simp only [acquire]
  rw [h]
  simp

theorem acquire_res (pid : Nat) (b : Bool) (nid : Nat) (p : PoolState)
    (r : Resource) (rest : List Item)
    (h : (checkPid pid p).free = Item.res r :: rest) :
    acquire pid b nid p =
      (AcquireResult.ok r, { checkPid pid p with free := rest }, nid) := by
  simp only [acquire]
  rw [h]

theorem checkPid_pidInv (pid : Nat) (p : PoolState)
    (h : ∀ r ∈ freeRes p, r.pid = p.ownerPid) :
    ∀ r ∈ freeRes (checkPid pid p), r.pid = (checkPid pid p).ownerPid := by
  unfold checkPid
  split
  · simpa [(by assumption : pid = p.ownerPid)] using h
  · intro r hr
    rw [freeRes_replicate_token p.maxSize _ rfl] at hr
    cases hr

theorem release_cases (r : Resource) (p : PoolState) :
    release r p = p ∨
      (r.pid = p.ownerPid ∧
        release r p = { p with free := Item.res r :: p.free }) := by
  unfold release
  by_cases h1 : r.pid = p.ownerPid
  · rw [if_neg (not_ne_iff.mpr h1)]
    by_cases h2 : p.maxSize ≤ p.free.length
    · rw [if_pos h2]
      exact Or.inl rfl
    · rw [if_neg h2]
      exact Or.inr ⟨h1, rfl⟩
  · rw [if_pos h1]
    exact Or.inl rfl

theorem inv_transfer (l l' : List Resource) (n n' : Nat)
    (hsub : ∃ l'' : List Resource, l''.Perm l' ∧ l''.Sublist l) (hn : n ≤ n')
    (hbound : ∀ r ∈ l, r.rid < n) (hnodup : (l.map Resource.rid).Nodup) :
    (∀ r ∈ l', r.rid < n') ∧ ((l'.map Resource.rid).Nodup) := by
  obtain ⟨l'', hperm, hsl⟩ := hsub
  constructor
  · intro r hr
    have hr2 : r ∈ l'' := hperm.symm.subset hr
    exact lt_of_lt_of_le (hbound r (hsl.subset hr2)) hn
  · have h1 : (l''.map Resource.rid).Sublist (l.map Resource.rid) := hsl.map _
    have h2 : (l''.map Resource.rid).Nodup := h1.nodup hnodup
    exact ((hperm.map Resource.rid).nodup_iff).mp h2

theorem inv_init (m pid : Nat) : Inv (initSys m pid) := by
  have hfr : freeRes (initPool m pid) = [] :=
    freeRes_replicate_token m _ rfl
  refine ⟨?_, ?_, ?_⟩ <;> simp [resList, initSys, hfr]

theorem inv_step (s : SysState) (op : Op) (h : Inv s) : Inv (step s op) := by
  obtain ⟨hbound, hnodup, hpid⟩ := h
  cases op with
  | acq pid b =>
      have hqpid := checkPid_pidInv pid s.pool hpid
      have hqsub : (freeRes (checkPid pid s.pool)).Sublist (freeRes s.pool) := by
        rcases checkPid_freeRes pid s.pool with h1 | h1
        · rw [h1]
        · rw [h1]; exact List.nil_sublist _
      cases hf : (checkPid pid s.pool).free with
      | nil =>
          simp only [step, acquire_nil pid b s.nextId s.pool hf]
          have hfr : freeRes (checkPid pid s.pool) = [] := by
            unfold freeRes
            rw [hf]
            rfl
          have htr := inv_transfer (resList s) (s.held ++ freeRes (checkPid pid s.pool))
            s.nextId s.nextId
            ⟨s.held ++ freeRes (checkPid pid s.pool), List.Perm.refl _,
              (hqsub.append_left s.held)⟩
            (le_refl _) hbound hnodup
          exact ⟨htr.1, htr.2, hqpid⟩
      | cons it rest =>
          cases it with
          | token =>
              have hfr : freeRes (checkPid pid s.pool) =
                  freeRes { checkPid pid s.pool with free := rest } :=
                freeRes_cons_token _ _ rest hf rfl
              cases b with
              | true =>
                  simp only [step, acquire_token_ok pid s.nextId s.pool rest hf]
                  have htr := inv_transfer (resList s)
                    (s.held ++ freeRes { checkPid pid s.pool with free := rest })
                    s.nextId s.nextId
                    ⟨s.held ++ freeRes { checkPid pid s.pool with free := rest },
                      List.Perm.refl _, (hfr ▸ hqsub).append_left s.held⟩
                    (le_refl _) hbound hnodup
                  refine ⟨?_, ?_, ?_⟩
                  · intro r hr
                    simp only [resList, List.cons_append, List.mem_cons] at hr
                    rcases hr with rfl | hr
                    · exact Nat.lt_succ_self _
                    · exact Nat.lt_succ_of_lt (htr.1 r hr)
                  · simp only [resList, List.cons_append, List.map_cons, List.nodup_cons]
                    refine ⟨?_, htr.2⟩
                    intro hmem
                    simp only [List.mem_map] at hmem
                    obtain ⟨r, hr, hrid⟩ := hmem
                    exact absurd hrid (Nat.ne_of_lt (htr.1 r hr))
                  · intro r hr
                    have hr2 : r ∈ freeRes (checkPid pid s.pool) := hfr ▸ hr
                    exact hqpid r hr2
              | false =>
                  simp only [step, acquire_token_fail pid s.nextId s.pool rest hf]
                  have hfr2 : freeRes { checkPid pid s.pool with
                      free := Item.token :: rest } = freeRes (checkPid pid s.pool) := by
                    unfold freeRes
                    rw [hf]
                  have hpid2 : ∀ r ∈ freeRes { checkPid pid s.pool with
                      free := Item.token :: rest }, r.pid = (checkPid pid s.pool).ownerPid := by
                    intro r hr
                    exact hqpid r (hfr2 ▸ hr)
                  have htr := inv_transfer (resList s)
                    (s.held ++ freeRes { checkPid pid s.pool with free := Item.token :: rest })
                    s.nextId s.nextId
                    ⟨s.held ++ freeRes { checkPid pid s.pool with free := Item.token :: rest },
                      List.Perm.refl _, (hfr2 ▸ hqsub).append_left s.held⟩
                    (le_refl _) hbound hnodup
                  exact ⟨htr.1, htr.2, hpid2⟩
          | res r0 =>
              have hfr : freeRes (checkPid pid s.pool) =
                  r0 :: freeRes { checkPid pid s.pool with free := rest } :=
                freeRes_cons_res _ _ r0 rest hf rfl
              simp only [step, acquire_res pid b s.nextId s.pool r0 rest hf]
              have hperm : (s.held ++ freeRes (checkPid pid s.pool)).Perm
                  (r0 :: s.held ++ freeRes { checkPid pid s.pool with free := rest }) := by
                rw [hfr]
                exact List.perm_middle
              have htr := inv_transfer (resList s)
                (r0 :: s.held ++ freeRes { checkPid pid s.pool with free := rest })
                s.nextId s.nextId
                ⟨s.held ++ freeRes (checkPid pid s.pool), hperm,
                  hqsub.append_left s.held⟩
                (le_refl _) hbound hnodup
              refine ⟨htr.1, htr.2, ?_⟩
              intro r hr
              have hr2 : r ∈ freeRes (checkPid pid s.pool) := by
                rw [hfr]
                exact List.mem_cons_of_mem r0 hr
              exact hqpid r hr2
  | rel i =>
      cases hg : s.held[i]? with
      | none => simpa [step, hg] using ⟨hbound, hnodup, hpid⟩
      | some r =>
          simp only [step, hg]
          have hperm0 : s.held.Perm (r :: s.held.eraseIdx i) :=
            perm_cons_eraseIdx s.held i r hg
          rcases release_cases r s.pool with hrel | ⟨hpideq, hrel⟩
          · rw [hrel]
            have htr := inv_transfer (resList s)
              (s.held.eraseIdx i ++ freeRes s.pool) s.nextId s.nextId
              ⟨s.held.eraseIdx i ++ freeRes s.pool, List.Perm.refl _,
                (List.eraseIdx_sublist s.held i).append_right (freeRes s.pool)⟩
              (le_refl _) hbound hnodup
            exact ⟨htr.1, htr.2, hpid⟩
          · rw [hrel]
            have hfr : freeRes { s.pool with free := Item.res r :: s.pool.free } =
                r :: freeRes s.pool := by
              unfold freeRes
              rw [List.filterMap_cons]
            have hperm : (s.held ++ freeRes s.pool).Perm
                (s.held.eraseIdx i ++ (r :: freeRes s.pool)) := by
              have h1 : (s.held ++ freeRes s.pool).Perm
                  ((r :: s.held.eraseIdx i) ++ freeRes s.pool) :=
                hperm0.append_right (freeRes s.pool)
              have h2 : ((r :: s.held.eraseIdx i) ++ freeRes s.pool).Perm
                  (s.held.eraseIdx i ++ (r :: freeRes s.pool)) := by
                simpa using List.perm_middle.symm
              exact h1.trans h2
            have htr := inv_transfer (resList s)
              (s.held.eraseIdx i ++ freeRes { s.pool with
                free := Item.res r :: s.pool.free }) s.nextId s.nextId
              ⟨s.held ++ freeRes s.pool, by rw [hfr]; exact hperm, List.Sublist.refl _⟩
              (le_refl _) hbound hnodup
            refine ⟨htr.1, htr.2, ?_⟩
            intro r2 hr2
            rw [hfr] at hr2
            rcases List.mem_cons.mp hr2 with rfl | hr2
            · exact hpideq
            · exact hpid r2 hr2

theorem inv_run (s : SysState) (ops : List Op) (h : Inv s) : Inv (run s ops) := by
  induction ops generalizing s with
  | nil => simpa [run] using h
  | cons op rest ih =>
      have h1 : run s (op :: rest) = run (step s op) rest := rfl
      rw [h1]
      exact ih (step s op) (inv_step s op h)

theorem inv_reachable (m pid : Nat) (ops : List Op) :
    Inv (run (initSys m pid) ops) :=
  inv_run _ ops (inv_init m pid)

theorem banished_step (r : Resource) (s : SysState) (op : Op)
    (h : Banished r s) : Banished r (step s op) := by
  obtain ⟨hrid, hfree, hheld⟩ := h
  cases op with
  | acq pid b =>
      have hqsub : (freeRes (checkPid pid s.pool)).Sublist (freeRes s.pool) := by
        rcases checkPid_freeRes pid s.pool with h1 | h1
        · rw [h1]
        · rw [h1]; exact List.nil_sublist _
      have hfq : r ∉ freeRes (checkPid pid s.pool) := fun hx => hfree (hqsub.subset hx)
      cases hf : (checkPid pid s.pool).free with
      | nil =>
          simp only [step, acquire_nil pid b s.nextId s.pool hf]
          exact ⟨hrid, hfq, hheld⟩
      | cons it rest =>
          cases it with
          | token =>
              have hfr := freeRes_cons_token (checkPid pid s.pool)
                { checkPid pid s.pool with free := rest } rest hf rfl
              cases b with
              | true =>
                  simp only [step, acquire_token_ok pid s.nextId s.pool rest hf]
                  refine ⟨Nat.lt_succ_of_lt hrid, ?_, ?_⟩
                  · intro hx
                    exact hfq (hfr ▸ hx)
                  · intro hx
                    rcases List.mem_cons.mp hx with heq | hx2
                    · exact absurd (congrArg Resource.rid heq) (Nat.ne_of_lt hrid)
                    · exact hheld hx2
              | false =>
                  simp only [step, acquire_token_fail pid s.nextId s.pool rest hf]
                  refine ⟨hrid, ?_, hheld⟩
                  intro hx
                  apply hfq
                  have he : freeRes { checkPid pid s.pool with
                      free := Item.token :: rest } = freeRes (checkPid pid s.pool) := by
                    unfold freeRes
                    rw [hf]
                  exact he ▸ hx
          | res r0 =>
              have hfr := freeRes_cons_res (checkPid pid s.pool)
                { checkPid pid s.pool with free := rest } r0 rest hf rfl
              simp only [step, acquire_res pid b s.nextId s.pool r0 rest hf]
              refine ⟨hrid, ?_, ?_⟩
              · intro hx
                apply hfq
                rw [hfr]
                exact List.mem_cons_of_mem r0 hx
              · intro hx
                rcases List.mem_cons.mp hx with heq | hx2
                · apply hfq
                  rw [hfr, heq]
                  exact List.mem_cons_self _ _
                · exact hheld hx2
  | rel i =>
      cases hg : s.held[i]? with
      | none => simpa [step, hg] using ⟨hrid, hfree, hheld⟩
      | some r2 =>
          simp only [step, hg]
          have hr2mem : r2 ∈ s.held := mem_of_getElem? s.held i r2 hg
          have hne : r2 ≠ r := fun he => hheld (he ▸ hr2mem)
          have hheld2 : r ∉ s.held.eraseIdx i := fun hx =>
            hheld ((List.eraseIdx_sublist s.held i).subset hx)
          rcases release_cases r2 s.pool with hrel | ⟨-, hrel⟩
          · rw [hrel]
            exact ⟨hrid, hfree, hheld2⟩
          · rw [hrel]
            refine ⟨hrid, ?_, hheld2⟩
            intro hx
            have he : freeRes { s.pool with free := Item.res r2 :: s.pool.free } =
                r2 :: freeRes s.pool := by
              unfold freeRes
              rw [List.filterMap_cons]
            rw [he] at hx
            rcases List.mem_cons.mp hx with heq | hx2
            · exact hne heq.symm
            · exact hfree hx2

theorem banished_run (r : Resource) (s : SysState) (ops : List Op)
    (h : Banished r s) : Banished r (run s ops) := by
  induction ops generalizing s with
  | nil => simpa [run] using h
  | cons op rest ih => exact ih (step s op) (banished_step r s op h)

theorem noFork_step (pid m : Nat) (s : SysState) (op : Op)
    (h : NoForkInv pid m s) (hop : fromPid pid op = true) :
    NoForkInv pid m (step s op) := by
  obtain ⟨hmax, hown, hlen⟩ := h
  cases op with
  | acq q b =>
      have hq : q = pid := by simpa [fromPid] using hop
      subst hq
      have hcp : checkPid q s.pool = s.pool := checkPid_same q s.pool hown
      cases hf : (checkPid q s.pool).free with
      | nil =>
          simp only [step, acquire_nil q b s.nextId s.pool hf]
          rw [hcp] at hf ⊢
          exact ⟨hmax, hown, by rw [hf]; simpa using Nat.le_trans (Nat.le_add_right _ _) hlen⟩
      | cons it rest =>
          cases it with
          | token =>
              cases b with
              | true =>
                  simp only [step, acquire_token_ok q s.nextId s.pool rest hf]
                  rw [hcp] at hf ⊢
                  refine ⟨hmax, hown, ?_⟩
                  have hfl : s.pool.free.length = rest.length + 1 := by
                    rw [hf]
                    rfl
                  simp only [List.length_cons]
                  omega
              | false =>
                  simp only [step, acquire_token_fail q s.nextId s.pool rest hf]
                  rw [hcp] at hf ⊢
                  refine ⟨hmax, hown, ?_⟩
                  have hfl : s.pool.free.length = rest.length + 1 := by
                    rw [hf]
                    rfl
                  simp only [List.length_cons]
                  omega
          | res r0 =>
              simp only [step, acquire_res q b s.nextId s.pool r0 rest hf]
              rw [hcp] at hf ⊢
              refine ⟨hmax, hown, ?_⟩
              have hfl : s.pool.free.length = rest.length + 1 := by
                rw [hf]
                rfl
              simp only [List.length_cons]
              omega
  | rel i =>
      cases hg : s.held[i]? with
      | none => simpa [step, hg] using ⟨hmax, hown, hlen⟩
      | some r2 =>
          simp only [step, hg]
          have hp := (perm_cons_eraseIdx s.held i r2 hg).length_eq
          simp only [List.length_cons] at hp
          rcases release_cases r2 s.pool with hrel | ⟨-, hrel⟩
          · rw [hrel]
            refine ⟨hmax, hown, ?_⟩
            show (s.held.eraseIdx i).length + s.pool.free.length ≤ m
            omega
          · rw [hrel]
            refine ⟨hmax, hown, ?_⟩
            show (s.held.eraseIdx i).length + (Item.res r2 :: s.pool.free).length ≤ m
            simp only [List.length_cons]
            omega

theorem noFork_run (pid m : Nat) (s : SysState) (ops : List Op)
    (h : NoForkInv pid m s) (hops : SamePid pid ops) :
    NoForkInv pid m (run s ops) := by
  induction ops generalizing s with
  | nil => simpa [run] using h
  | cons op rest ih =>
      exact ih (step s op)
        (noFork_step pid m s op h (hops op (List.mem_cons_self op rest)))
        (fun o ho => hops o (List.mem_cons_of_mem op ho))

theorem freeRes_tokenCount (p : PoolState) :
    (freeRes p).length + tokenCount p = p.free.length := by
  unfold freeRes tokenCount
  generalize p.free = l
  induction l with
  | nil => rfl
  | cons it rest ih =>
      cases it with
      | token =>
          simp only [List.filterMap_cons, List.filter_cons, List.length_cons]
          simp
          omega
      | res r0 =>
          simp only [List.filterMap_cons, List.filter_cons, List.length_cons]
          simp
          omega

/-! ## Claim theorems -/

/-- C9: over every interleaving of concurrent acquire and release calls
(modelled as a sequence of atomic operations, which is faithful because the
specification serializes every pool operation under one coarse lock), no
resource is ever held by two callers at once: the held multiset never
contains a duplicate, and a resource checked out to a caller is never
simultaneously present in the free list, so ownership is exclusive from the
moment `acquire` returns it until it is released. -/
theorem c9_exclusive_ownership (m pid : Nat) (ops : List Op) :
    (run (initSys m pid) ops).held.Nodup
    ∧ ∀ r ∈ (run (initSys m pid) ops).held,
        r ∉ freeRes (run (initSys m pid) ops).pool := by
  obtain ⟨-, hnodup, -⟩ := inv_reachable m pid ops
  have hl : (resList (run (initSys m pid) ops)).Nodup := List.Nodup.of_map _ hnodup
  rw [resList, List.nodup_append] at hl
  exact ⟨hl.1, fun r hr hrf => hl.2.2 hr hrf⟩

/-- C4: an `acquire` (at its linearization point, so that the free list
already reflects everything that became available within the timeout) fails
with `poolExhausted` exactly when the free list is empty — with `timeout =
0` and an empty free list it fails immediately instead of blocking; in every
other case it returns a resource or propagates a factory error, never
`poolExhausted`. -/
theorem c4_pool_exhausted_iff (p : PoolState) (b : Bool) (nid : Nat) :
    (acquire p.ownerPid b nid p).1 = AcquireResult.poolExhausted ↔ p.free = [] := by
  have hcp : checkPid p.ownerPid p = p := checkPid_same p.ownerPid p rfl
  cases hf : p.free with
  | nil =>
      rw [acquire_nil p.ownerPid b nid p (by rw [hcp]; exact hf)]
      simp
  | cons it rest =>
      cases it with
      | token =>
          cases b with
          | true =>
              rw [acquire_token_ok p.ownerPid nid p rest (by rw [hcp]; exact hf)]
              simp
          | false =>
              rw [acquire_token_fail p.ownerPid nid p rest (by rw [hcp]; exact hf)]
              simp
      | res r0 =>
          rw [acquire_res p.ownerPid b nid p r0 rest (by rw [hcp]; exact hf)]
          simp

/-- C5: when the resource factory fails during an `acquire` that consumed a
slot token, the factory error is propagated to the caller and the pool state
is completely unchanged — in particular the consumed token is back in the
free list, so the effective maximum number of subsequently acquirable
resources is not reduced. -/
theorem c5_factory_failure_restores_token (p : PoolState) (nid : Nat)
    (rest : List Item) (hfree : p.free = Item.token :: rest) :
    acquire p.ownerPid false nid p = (AcquireResult.factoryError, p, nid) := by
  have hcp : checkPid p.ownerPid p = p := checkPid_same p.ownerPid p rfl
  rw [acquire_token_fail p.ownerPid nid p rest (by rw [hcp]; exact hfree), hcp,
    ← hfree]

/-- Witness for C5 at a concrete pool whose free list is one slot token. -/
theorem c5_witness :
    acquire (initPool 1 0).ownerPid false 5 (initPool 1 0)
      = (AcquireResult.factoryError, initPool 1 0, 5) :=
  c5_factory_failure_restores_token (initPool 1 0) 5 [] (by decide)

/-- C8: `release` never blocks and never fails — on every pool state and
argument it either pushes the resource onto the free list or leaves the pool
unchanged (silently dropping the resource), and when the free list is
already at capacity the resource is dropped rather than an error being
raised. -/
theorem c8_release_never_fails (r : Resource) (p : PoolState) :
    (release r p = p ∨ release r p = { p with free := Item.res r :: p.free })
    ∧ (p.maxSize ≤ p.free.length → release r p = p) := by
  constructor
  · rcases release_cases r p with h | ⟨-, h⟩
    · exact Or.inl h
    · exact Or.inr h
  · intro hcap
    unfold release
    by_cases h1 : r.pid ≠ p.ownerPid
    · rw [if_pos h1]
    · rw [if_neg h1, if_pos hcap]

/-- Witness for C8 at a concrete pool whose free list is at capacity. -/
theorem c8_witness :
    release { rid := 0, pid := 0 }
        { maxSize := 1, ownerPid := 0, free := [Item.res { rid := 1, pid := 0 }],
          registry := [], closed := [] }
      = { maxSize := 1, ownerPid := 0, free := [Item.res { rid := 1, pid := 0 }],
          registry := [], closed := [] } :=
  (c8_release_never_fails { rid := 0, pid := 0 }
    { maxSize := 1, ownerPid := 0, free := [Item.res { rid := 1, pid := 0 }],
      registry := [], closed := [] }).2 (by decide)

/-- C3: the free list is last-in-first-out.  If resource A is released and
then resource B is released (both owned by the current process, with room in
the free list and no slot tokens remaining, no other acquisitions
interleaved), two subsequent sequential `acquire` calls return B first and A
second. -/
theorem c3_lifo (p : PoolState) (A B : Resource) (nid nid2 : Nat) (b b2 : Bool)
    (hA : A.pid = p.ownerPid) (hB : B.pid = p.ownerPid)
    (hroom : p.free.length + 2 ≤ p.maxSize)
    (_htok : ∀ it ∈ p.free, it ≠ Item.token) :
    acquire p.ownerPid b nid (release B (release A p))
        = (AcquireResult.ok B, { p with free := Item.res A :: p.free }, nid)
    ∧ acquire p.ownerPid b2 nid2 { p with free := Item.res A :: p.free }
        = (AcquireResult.ok A, p, nid2) := by
  have hrelA : release A p = { p with free := Item.res A :: p.free } := by
    unfold release
    rw [if_neg (not_ne_iff.mpr hA), if_neg (by omega)]
  have hrelB : release B { p with free := Item.res A :: p.free }
      = { p with free := Item.res B :: Item.res A :: p.free } := by
    unfold release
    rw [if_neg (not_ne_iff.mpr hB)]
    rw [if_neg (by simp only [List.length_cons]; omega)]
  have hcs2 : checkPid p.ownerPid
      { p with free := Item.res B :: Item.res A :: p.free }
      = { p with free := Item.res B :: Item.res A :: p.free } :=
    checkPid_same p.ownerPid { p with free := Item.res B :: Item.res A :: p.free } rfl
  have hcs1 : checkPid p.ownerPid { p with free := Item.res A :: p.free }
      = { p with free := Item.res A :: p.free } :=
    checkPid_same p.ownerPid { p with free := Item.res A :: p.free } rfl
  constructor
  · rw [hrelA, hrelB]
    have hf : (checkPid p.ownerPid
        { p with free := Item.res B :: Item.res A :: p.free }).free
        = Item.res B :: (Item.res A :: p.free) := by
      rw [hcs2]
    rw [acquire_res p.ownerPid b nid _ B (Item.res A :: p.free) hf, hcs2]
  · have hf : (checkPid p.ownerPid { p with free := Item.res A :: p.free }).free
        = Item.res A :: p.free := by
      rw [hcs1]
    rw [acquire_res p.ownerPid b2 nid2 _ A p.free hf, hcs1]

/-- Witness for C3 on a concrete pool with an empty free list. -/
theorem c3_witness :
    acquire 0 true 2 (release { rid := 1, pid := 0 } (release { rid := 0, pid := 0 }
        { maxSize := 2, ownerPid := 0, free := [], registry := [], closed := [] }))
      = (AcquireResult.ok { rid := 1, pid := 0 },
         { maxSize := 2, ownerPid := 0, free := [Item.res { rid := 0, pid := 0 }],
           registry := [], closed := [] }, 2)
    ∧ acquire 0 true 3
        { maxSize := 2, ownerPid := 0,
          free := [Item.res { rid := 0, pid := 0 }], registry := [], closed := [] }
      = (AcquireResult.ok { rid := 0, pid := 0 },
         { maxSize := 2, ownerPid := 0, free := [], registry := [], closed := [] },
         3) :=
  c3_lifo { maxSize := 2, ownerPid := 0, free := [], registry := [], closed := [] }
    { rid := 0, pid := 0 } { rid := 1, pid := 0 } 2 3 true true
    (by decide) (by decide) (by decide) (by decide)

/-- C1: for every positive `max_size` and every sequence of acquire/release
operations (all from the pool's own process — the claim is about plain
concurrent use, not forks), the pool invariant holds: the number of live
resources (held by callers or idle in the free list) plus the number of free
slot tokens never exceeds `max_size`, and in particular the number of
resources simultaneously held by callers never exceeds `max_size`. -/
theorem c1_capacity_invariant (m pid : Nat) (ops : List Op) (_hm : 0 < m)
    (hops : SamePid pid ops) :
    ((run (initSys m pid) ops).held.length
        + (freeRes (run (initSys m pid) ops).pool).length)
      + tokenCount (run (initSys m pid) ops).pool ≤ m
    ∧ (run (initSys m pid) ops).held.length ≤ m := by
  have h0 : NoForkInv pid m (initSys m pid) := by
    refine ⟨rfl, rfl, ?_⟩
    simp [initSys, initPool]
  obtain ⟨-, -, hlen⟩ := noFork_run pid m (initSys m pid) ops h0 hops
  have hc := freeRes_tokenCount (run (initSys m pid) ops).pool
  constructor
  · omega
  · omega

/-- Witness for C1 on a concrete operation sequence with max size 2. -/
theorem c1_witness :
    ((run (initSys 2 0)
          [Op.acq 0 true, Op.acq 0 true, Op.rel 0, Op.acq 0 false, Op.acq 0 true]).held.length
        + (freeRes (run (initSys 2 0)
            [Op.acq 0 true, Op.acq 0 true, Op.rel 0, Op.acq 0 false, Op.acq 0 true]).pool).length)
      + tokenCount (run (initSys 2 0)
          [Op.acq 0 true, Op.acq 0 true, Op.rel 0, Op.acq 0 false, Op.acq 0 true]).pool ≤ 2
    ∧ (run (initSys 2 0)
        [Op.acq 0 true, Op.acq 0 true, Op.rel 0, Op.acq 0 false, Op.acq 0 true]).held.length ≤ 2 :=
  c1_capacity_invariant 2 0
    [Op.acq 0 true, Op.acq 0 true, Op.rel 0, Op.acq 0 false, Op.acq 0 true]
    (by decide) (by unfold SamePid; decide)

theorem acquire_ok_pid (pid : Nat) (b : Bool) (nid : Nat) (p : PoolState)
    (r : Resource) (p' : PoolState) (nid' : Nat)
    (hpid : ∀ r0 ∈ freeRes p, r0.pid = p.ownerPid)
    (h : acquire pid b nid p = (AcquireResult.ok r, p', nid')) : r.pid = pid := by
  cases hf : (checkPid pid p).free with
  | nil =>
      rw [acquire_nil pid b nid p hf] at h
      simp at h
  | cons it rest =>
      cases it with
      | token =>
          cases b with
          | true =>
              rw [acquire_token_ok pid nid p rest hf] at h
              have hr : ({ rid := nid, pid := pid } : Resource) = r := by
                have h1 := congrArg Prod.fst h
                simpa using h1
              rw [← hr]
          | false =>
              rw [acquire_token_fail pid nid p rest hf] at h
              simp at h
      | res r0 =>
          rw [acquire_res pid b nid p r0 rest hf] at h
          have hr : r0 = r := by
            have h1 := congrArg Prod.fst h
            simpa using h1
          have hmem : r0 ∈ freeRes (checkPid pid p) := by
            rw [freeRes_cons_res (checkPid pid p)
              { checkPid pid p with free := rest } r0 rest hf rfl]
            exact List.mem_cons_self _ _
          have h2 := checkPid_pidInv pid p hpid r0 hmem
          rw [checkPid_ownerPid] at h2
          rw [← hr]
          exact h2

/-- C6: in every reachable pool state, an `acquire` made from process `pid`
only ever returns a resource whose recorded creating process is `pid` — so
after the current process identifier changes from the pool's recorded owner
pid, no subsequent `acquire` returns a resource created under the old pid
(the fork reset has discarded them and repopulated the free list with fresh
slot tokens).  Moreover the reset path (`checkPid`) never invokes the close
capability on the discarded resources: the set of closed resources is
unchanged. -/
theorem c6_fork_acquire_fresh_pid (m pid0 : Nat) (ops : List Op) (pid : Nat)
    (b : Bool) (r : Resource) (p' : PoolState) (nid' : Nat)
    (h : acquire pid b (run (initSys m pid0) ops).nextId
          (run (initSys m pid0) ops).pool = (AcquireResult.ok r, p', nid')) :
    r.pid = pid
    ∧ (checkPid pid (run (initSys m pid0) ops).pool).closed
        = (run (initSys m pid0) ops).pool.closed := by
  obtain ⟨-, -, hpid⟩ := inv_reachable m pid0 ops
  exact ⟨acquire_ok_pid pid b _ _ r p' nid' hpid h, checkPid_closed pid _⟩

/-- Witness for C6: a fork from pid 0 to pid 1 on a fresh pool of size 1;
the acquired resource carries pid 1 and nothing was closed. -/
theorem c6_witness :
    Resource.pid { rid := 0, pid := 1 } = 1
    ∧ (checkPid 1 (run (initSys 1 0) []).pool).closed
        = (run (initSys 1 0) []).pool.closed :=
  c6_fork_acquire_fresh_pid 1 0 [] 1 true { rid := 0, pid := 1 }
    { maxSize := 1, ownerPid := 1, free := [],
      registry := [{ rid := 0, pid := 1 }], closed := [] } 1 (by decide)

/-- C7: releasing, in a reachable state, a held resource whose creating pid
differs from the pool's current owner pid is a silent no-op — the entire
pool state (free list, registry, closed set) is unchanged — and the
resource never reappears: after any further sequence of operations it is
neither in the free list nor held by any caller, so no subsequent `acquire`
ever returns it. -/
theorem c7_release_pid_mismatch_noop (m pid0 : Nat) (ops0 ops : List Op)
    (i : Nat) (r : Resource)
    (hheld : (run (initSys m pid0) ops0).held[i]? = some r)
    (hmis : r.pid ≠ (run (initSys m pid0) ops0).pool.ownerPid) :
    (step (run (initSys m pid0) ops0) (Op.rel i)).pool
        = (run (initSys m pid0) ops0).pool
    ∧ r ∉ freeRes (run (step (run (initSys m pid0) ops0) (Op.rel i)) ops).pool
    ∧ r ∉ (run (step (run (initSys m pid0) ops0) (Op.rel i)) ops).held := by
  obtain ⟨hbound, hnodup, -⟩ := inv_reachable m pid0 ops0
  have hrmem : r ∈ (run (initSys m pid0) ops0).held :=
    mem_of_getElem? _ i r hheld
  have hlnd : (resList (run (initSys m pid0) ops0)).Nodup :=
    List.Nodup.of_map _ hnodup
  rw [resList, List.nodup_append] at hlnd
  have hrfree : r ∉ freeRes (run (initSys m pid0) ops0).pool :=
    fun hx => hlnd.2.2 hrmem hx
  have hrel : release r (run (initSys m pid0) ops0).pool
      = (run (initSys m pid0) ops0).pool := by
    unfold release
    rw [if_pos hmis]
  have hpool : (step (run (initSys m pid0) ops0) (Op.rel i)).pool
      = (run (initSys m pid0) ops0).pool := by
    simp only [step, hheld, hrel]
  have hban : Banished r (step (run (initSys m pid0) ops0) (Op.rel i)) := by
    refine ⟨?_, ?_, ?_⟩
    · have hn : (step (run (initSys m pid0) ops0) (Op.rel i)).nextId
          = (run (initSys m pid0) ops0).nextId := by
        simp only [step, hheld]
      rw [hn]
      exact hbound r (List.mem_append_left _ hrmem)
    · rw [hpool]
      exact hrfree
    · have hh : (step (run (initSys m pid0) ops0) (Op.rel i)).held
          = (run (initSys m pid0) ops0).held.eraseIdx i := by
        simp only [step, hheld]
      rw [hh]
      have hperm := perm_cons_eraseIdx (run (initSys m pid0) ops0).held i r hheld
      have hnd2 : (r :: (run (initSys m pid0) ops0).held.eraseIdx i).Nodup :=
        hperm.nodup_iff.mp hlnd.1
      exact (List.nodup_cons.mp hnd2).1
  have hb2 := banished_run r _ ops hban
  exact ⟨hpool, hb2.2.1, hb2.2.2⟩

/-- Witness for C7: acquire under pid 0, fork to pid 1 (which acquires
again), then release the pid-0 resource and keep operating under pid 1. -/
theorem c7_witness :
    (step (run (initSys 2 0) [Op.acq 0 true, Op.acq 1 true]) (Op.rel 1)).pool
        = (run (initSys 2 0) [Op.acq 0 true, Op.acq 1 true]).pool
    ∧ { rid := 0, pid := 0 } ∉ freeRes (run (step (run (initSys 2 0)
          [Op.acq 0 true, Op.acq 1 true]) (Op.rel 1))
          [Op.acq 1 true, Op.rel 0]).pool
    ∧ { rid := 0, pid := 0 } ∉ (run (step (run (initSys 2 0)
          [Op.acq 0 true, Op.acq 1 true]) (Op.rel 1))
          [Op.acq 1 true, Op.rel 0]).held :=
  c7_release_pid_mismatch_noop 2 0 [Op.acq 0 true, Op.acq 1 true]
    [Op.acq 1 true, Op.rel 0] 1 { rid := 0, pid := 0 } (by decide) (by decide)

/-- C2 counterexample: `MysqlClient.transaction` does not follow the
discard-and-reacquire pattern.  On a pool holding one idle resource whose
raw connection is stale (so the first `begin` raises an operational error),
the transaction block still releases that resource back to the pool and
performs exactly one acquisition, never two. -/
theorem c2_counterexample :
    ¬ discardAndReacquirePattern 0 true 5 (fun n => n == 0) (fun _ => some 0) 1
        { maxSize := 2, ownerPid := 0, free := [Item.res { rid := 7, pid := 0 }],
          registry := [{ rid := 7, pid := 0 }], closed := [] } := by
  intro hpat
  have h2 := hpat { rid := 7, pid := 0 }
      { maxSize := 2, ownerPid := 0, free := [],
        registry := [{ rid := 7, pid := 0 }], closed := [] } 5
      (by decide) 0 rfl rfl
  exact absurd h2.2 (by decide)

/-- C2 amended: when the first `begin` inside `MysqlClient.transaction`
fails with an operational error (the wrapper's current raw connection `c` is
stale), the code closes only that raw connection via `disconnect` and
retries `begin` once on the same pool resource, which transparently opens a
fresh raw connection; exactly one pool acquisition happens, and the same
resource is always released back to the pool by the `finally` clause,
whether or not the retry succeeds. -/
theorem c2_transaction_reconnects_in_place (pid : Nat) (b : Bool) (nid : Nat)
    (stale : Nat → Bool) (underOf : Nat → Option Nat) (fresh : Nat)
    (p : PoolState) (r : Resource) (p' : PoolState) (nid' : Nat) (c : Nat)
    (hacq : acquire pid b nid p = (AcquireResult.ok r, p', nid'))
    (hu : underOf r.rid = some c) (hstale : stale c = true) :
    (transaction pid b nid stale underOf fresh p).acquiredRids = [r.rid]
    ∧ (transaction pid b nid stale underOf fresh p).releasedRids = [r.rid]
    ∧ (transaction pid b nid stale underOf fresh p).closedRaws = [c]
    ∧ (transaction pid b nid stale underOf fresh p).wrapperRaw = some fresh
    ∧ (transaction pid b nid stale underOf fresh p).pool = release r p'
    ∧ (transaction pid b nid stale underOf fresh p).outcome
        = (if stale fresh then TxOutcome.beginError else TxOutcome.ok) := by
  have hbp : beginPhase stale (underOf r.rid) fresh
      = (!(stale fresh), some fresh, fresh + 1, [c]) := by
    unfold beginPhase wrapperBegin
    rw [hu]
    simp [hstale]
  unfold transaction
  rw [hacq]
  simp only [hbp]
  cases hsf : stale fresh with
  | true => simp [hsf]
  | false => simp [hsf]

/-- Witness for the amended C2 at the counterexample's concrete input. -/
theorem c2_witness :
    (transaction 0 true 5 (fun n => n == 0) (fun _ => some 0) 1
        { maxSize := 2, ownerPid := 0, free := [Item.res { rid := 7, pid := 0 }],
          registry := [{ rid := 7, pid := 0 }], closed := [] }).acquiredRids = [7]
    ∧ (transaction 0 true 5 (fun n => n == 0) (fun _ => some 0) 1
        { maxSize := 2, ownerPid := 0, free := [Item.res { rid := 7, pid := 0 }],
          registry := [{ rid := 7, pid := 0 }], closed := [] }).releasedRids = [7]
    ∧ (transaction 0 true 5 (fun n => n == 0) (fun _ => some 0) 1
        { maxSize := 2, ownerPid := 0, free := [Item.res { rid := 7, pid := 0 }],
          registry := [{ rid := 7, pid := 0 }], closed := [] }).closedRaws = [0]
    ∧ (transaction 0 true 5 (fun n => n == 0) (fun _ => some 0) 1
        { maxSize := 2, ownerPid := 0, free := [Item.res { rid := 7, pid := 0 }],
          registry := [{ rid := 7, pid := 0 }], closed := [] }).wrapperRaw = some 1
    ∧ (transaction 0 true 5 (fun n => n == 0) (fun _ => some 0) 1
        { maxSize := 2, ownerPid := 0, free := [Item.res { rid := 7, pid := 0 }],
          registry := [{ rid := 7, pid := 0 }], closed := [] }).pool
        = release { rid := 7, pid := 0 }
            { maxSize := 2, ownerPid := 0, free := [],
              registry := [{ rid := 7, pid := 0 }], closed := [] }
    ∧ (transaction 0 true 5 (fun n => n == 0) (fun _ => some 0) 1
        { maxSize := 2, ownerPid := 0, free := [Item.res { rid := 7, pid := 0 }],
          registry := [{ rid := 7, pid := 0 }], closed := [] }).outcome
        = (if (fun n => n == 0) 1 then TxOutcome.beginError else TxOutcome.ok) :=
  c2_transaction_reconnects_in_place 0 true 5 (fun n => n == 0) (fun _ => some 0) 1
    { maxSize := 2, ownerPid := 0, free := [Item.res { rid := 7, pid := 0 }],
      registry := [{ rid := 7, pid := 0 }], closed := [] }
    { rid := 7, pid := 0 }
    { maxSize := 2, ownerPid := 0, free := [],
      registry := [{ rid := 7, pid := 0 }], closed := [] } 5 0
    (by decide) rfl rfl

/-! ## Auxiliary facts for C10: decimal numerals never collide with the
order-by fragment -/

theorem digitChar_ne_space (m : Nat) : Nat.digitChar m ≠ ' ' := by
  rcases Nat.lt_or_ge m 16 with hlt | hge
  · interval_cases m <;> decide
  · intro h
    unfold Nat.digitChar at h
    repeat rw [if_neg (by omega)] at h
    exact absurd h (by decide)

theorem toDigitsCore_chars (b : Nat) (f : Nat) :
    ∀ (n : Nat) (l : List Char) (c : Char), c ∈ Nat.toDigitsCore b f n l →
      c ∈ l ∨ ∃ m, c = Nat.digitChar m := by
  induction f with
  | zero =>
      intro n l c hc
      exact Or.inl hc
  | succ f ih =>
      intro n l c hc
      by_cases hnb : n / b = 0
      · have hc2 : c ∈ Nat.digitChar (n % b) :: l := by
          unfold Nat.toDigitsCore at hc
          simpa [hnb] using hc
        rcases List.mem_cons.mp hc2 with heq | hmem
        · exact Or.inr ⟨n % b, heq⟩
        · exact Or.inl hmem
      · have hc2 : c ∈ Nat.toDigitsCore b f (n / b) (Nat.digitChar (n % b) :: l) := by
          unfold Nat.toDigitsCore at hc
          simpa [hnb] using hc
        rcases ih (n / b) (Nat.digitChar (n % b) :: l) c hc2 with hmem | hdig
        · rcases List.mem_cons.mp hmem with heq | hmem2
          · exact Or.inr ⟨n % b, heq⟩
          · exact Or.inl hmem2
        · exact Or.inr hdig

theorem natRepr_ne_order_by (n : Nat) : Nat.repr n ≠ "order by" := by
  intro h
  have hdata : Nat.toDigits 10 n = "order by".data := by
    have h1 := congrArg String.data h
    simpa [Nat.repr, List.asString] using h1
  have hsp : (' ' : Char) ∈ Nat.toDigits 10 n := by
    rw [hdata]
    decide
  rcases toDigitsCore_chars 10 (n + 1) n [] ' ' hsp with hmem | ⟨m, hm⟩
  · cases hmem
  · exact digitChar_ne_space m hm.symm

theorem order_by_not_mem_selectParts (table keys : String) (whereC : Option String)
    (limit offset : Option Nat) (hw : whereC ≠ some "order by") :
    "order by" ∉ selectParts table keys whereC limit offset none := by
  intro hmem
  unfold selectParts at hmem
  simp only [List.mem_append, List.mem_singleton] at hmem
  rcases hmem with ((((h | h) | h) | h) | h)
  · have hlen := congrArg String.length h
    simp only [String.length_append] at hlen
    have h8 : ("order by" : String).length = 8 := by decide
    have hs : ("select " : String).length = 7 := by decide
    have hf : (" from " : String).length = 6 := by decide
    omega
  · cases hwc : whereC with
    | none =>
        rw [hwc] at h
        simp [truthyStr] at h
    | some s =>
        rw [hwc] at h
        by_cases hs : s = ""
        · simp [truthyStr, hs] at h
        · have htv : truthyStr (some s) = true := by simp [truthyStr, hs]
          rw [if_pos htv] at h
          simp only [Option.getD_some, List.mem_cons, List.mem_singleton] at h
          rcases h with h | h | h
          · exact absurd h (by decide)
          · exact hw (by rw [hwc, ← h])
          · cases h
  · cases hl : limit with
    | none =>
        rw [hl] at h
        simp [truthyNat] at h
    | some k =>
        rw [hl] at h
        by_cases hk : k = 0
        · simp [truthyNat, hk] at h
        · have htv : truthyNat (some k) = true := by simp [truthyNat, hk]
          rw [if_pos htv] at h
          simp only [Option.getD_some, List.mem_cons, List.mem_singleton] at h
          rcases h with h | h | h
          · exact absurd h (by decide)
          · exact natRepr_ne_order_by k h.symm
          · cases h
  · cases ho : offset with
    | none =>
        rw [ho] at h
        simp [truthyNat] at h
    | some k =>
        rw [ho] at h
        by_cases hk : k = 0
        · simp [truthyNat, hk] at h
        · have htv : truthyNat (some k) = true := by simp [truthyNat, hk]
          rw [if_pos htv] at h
          simp only [Option.getD_some, List.mem_cons, List.mem_singleton] at h
          rcases h with h | h | h
          · exact absurd h (by decide)
          · exact natRepr_ne_order_by k h.symm
          · cases h
  · simp [truthyStr] at h

/-- C10: `MysqlDatabase.select` never forwards its `order_by` argument into
the underlying `select` statement builder — the statement it issues equals
the one built with no ordering at all, and the builder's fragment list
contains no "order by" fragment (assuming the opaque rendered where
condition is not itself the literal string "order by", which the real
`_dict2str` can never produce since its output always carries backticks or
quotes); consequently each statement issued by `MysqlDatabase.iter_select`,
which passes `order_by="id"`, is also built without an order-by clause. -/
theorem c10_order_by_never_forwarded (logId table keys : String)
    (whereC : Option String) (limit offset : Option Nat)
    (orderBy : Option String) (chunkSize : Nat)
    (hw : whereC ≠ some "order by") :
    dbSelectStmt logId table keys whereC limit offset orderBy
        = addLogId logId (selectStmt table keys whereC limit offset none)
    ∧ "order by" ∉ dbSelectParts table keys whereC limit offset orderBy
    ∧ "order by" ∉ iterSelectParts table keys whereC chunkSize := by
  refine ⟨rfl, ?_, ?_⟩
  · exact order_by_not_mem_selectParts table keys whereC limit offset hw
  · exact order_by_not_mem_selectParts table keys whereC (some chunkSize) none hw

/-- Witness for C10 at concrete arguments that request an ordering. -/
theorem c10_witness :
    dbSelectStmt "/* log */" "t" "*" (some "a") (some 5) (some 0) (some "id")
        = addLogId "/* log */" (selectStmt "t" "*" (some "a") (some 5) (some 0) none)
    ∧ "order by" ∉ dbSelectParts "t" "*" (some "a") (some 5) (some 0) (some "id")
    ∧ "order by" ∉ iterSelectParts "t" "*" (some "a") 20 :=
  c10_order_by_never_forwarded "/* log */" "t" "*" (some "a") (some 5) (some 0)
    (some "id") 20 (by decide)

end Futile
